import Mathlib

/-!
Verification of the stockeazy retail-management core: the sales-record
materializer (SQL trigger functions in the schema migration), the invoice
number generator, and the three analytics aggregations (profits, trending,
product sales).

Modelling conventions:
* Database rows are Lean structures; only the columns read or written by the
  modelled operations are kept.  `DECIMAL` money columns are rationals,
  nullable columns are `Option`, `uuid` keys are strings, timestamps are
  naturals.
* The trigger functions `generate_invoice_number`,
  `create_sales_records_on_invoice` and
  `manage_sales_records_on_invoice_update` are translated statement by
  statement from the migration file; the `AFTER INSERT` sales trigger is
  dropped by the later migration, so an invoice insert touches only the
  `invoices` table.
* JavaScript `Array.prototype.sort` is a stable sort; with a total preorder
  comparator its output is the unique stable order, which insertion sort
  (`jsSortBy`) computes.  JavaScript object/Map accumulation with
  non-numeric keys preserves first-insertion order, which `jsUpsert` on an
  ordered list of entries computes.
-/

namespace Stockeazy

/-- JS-style upsert into an insertion-ordered list of entries carrying their
own key: the first entry whose key matches `k` is replaced by `f` of it;
when no entry matches, `f init` is appended at the back. -/
def jsUpsert {α κ : Type} [DecidableEq κ] (k : κ) (key : α → κ) (init : α) (f : α → α) :
    List α → List α
  | [] => [f init]
  | x :: xs => if key x = k then f x :: xs else x :: jsUpsert k key init f xs

/-- Insert `a` into a list before the first element `b` with `le a b`. -/
def insertLe {α : Type} (le : α → α → Bool) (a : α) : List α → List α
  | [] => [a]
  | b :: bs => if le a b then a :: b :: bs else b :: insertLe le a bs

/-- Stable sort with respect to the boolean comparison `le`; this is the
order produced by JavaScript's stable `Array.prototype.sort`. -/
def jsSortBy {α : Type} (le : α → α → Bool) : List α → List α
  | [] => []
  | a :: as => insertLe le a (jsSortBy le as)

/-- Decimal digits of `n`, most significant first; `fuel` bounds recursion. -/
def decDigits : Nat → Nat → List Char
  | 0, _ => []
  | fuel + 1, n =>
    if n < 10 then [Char.ofNat (48 + n)]
    else decDigits fuel (n / 10) ++ [Char.ofNat (48 + n % 10)]

/-- Decimal rendering of a natural number (the `::TEXT` cast). -/
def decRepr (n : Nat) : String :=
  ⟨decDigits (n + 1) n⟩

/-- PostgreSQL `LPAD(s, len, c)`: pad on the left with `c` up to `len`;
a string longer than `len` is truncated on the right. -/
def lpad (s : String) (len : Nat) (c : Char) : String :=
  if len ≤ s.length then ⟨s.toList.take len⟩
  else ⟨List.replicate (len - s.length) c ++ s.toList⟩

/-- Numeric value of a list of decimal digit characters. -/
def digitsVal (ds : List Char) : Nat :=
  ds.foldl (fun n c => n * 10 + (c.toNat - 48)) 0

/-- First match of the regular expression INV-([0-9]+) in a character list:
scan left to right for the literal INV- followed by at least one digit and
return the value of the maximal digit run (PostgreSQL SUBSTRING semantics,
unanchored). -/
def invSuffix : List Char → Option Nat
  | 'I' :: 'N' :: 'V' :: '-' :: r =>
    let ds := r.takeWhile Char.isDigit
    if ds.isEmpty then invSuffix ('N' :: 'V' :: '-' :: r) else some (digitsVal ds)
  | _ :: r => invSuffix r
  | [] => none

/-! ### Data model (columns used by the modelled operations) -/

/-- Row of `products` (`cost_inr DECIMAL` is nullable). -/
structure Product where
  id : String
  cost_inr : Option ℚ
deriving DecidableEq

/-- Row of `invoices` restricted to the columns the triggers read. -/
structure Invoice where
  id : String
  invoice_number : String
  payment_status : String
  created_at : Nat
deriving DecidableEq

/-- Row of `invoice_items` (`product_id` FK is `ON DELETE SET NULL`). -/
structure InvoiceItem where
  invoice_id : String
  product_id : Option String
  product_name : String
  size_name : Option String
  color_name : Option String
  quantity : ℤ
  unit_price : ℚ
  total_price : ℚ
deriving DecidableEq

/-- Row of `sales_records` (`invoice_id` FK is `ON DELETE SET NULL`). -/
structure SalesRecord where
  invoice_id : Option String
  invoice_number : String
  product_id : Option String
  product_name : String
  size_name : Option String
  color_name : Option String
  quantity : ℤ
  unit_price : ℚ
  total_price : ℚ
  cost_per_unit : Option ℚ
  profit_per_unit : Option ℚ
  total_profit : Option ℚ
  sale_date : Nat
deriving DecidableEq

/-- The tables the materializer touches. -/
structure DBState where
  invoices : List Invoice
  invoice_items : List InvoiceItem
  sales_records : List SalesRecord
  products : List Product
deriving DecidableEq

/-! ### Trigger functions (schema migration) -/

/-- Cost column of the row produced by
LEFT JOIN products p ON ii.product_id = p.id: `none` when the join finds no
product (including a NULL `product_id`) or the product's cost is NULL. -/
def joinedCost (products : List Product) (pid : Option String) : Option ℚ :=
  match pid with
  | none => none
  | some pid =>
    match products.find? (fun p => decide (p.id = pid)) with
    | none => none
    | some p => p.cost_inr

/-- One row of the INSERT INTO sales_records ... SELECT of the trigger
functions, for a single invoice item: COALESCE(p.cost_inr, 0),
COALESCE(ii.unit_price - p.cost_inr, ii.unit_price),
COALESCE((ii.unit_price - p.cost_inr) * ii.quantity, ii.total_price),
sale_date = NEW.created_at. -/
def salesRecordOfItem (inv : Invoice) (products : List Product) (ii : InvoiceItem) :
    SalesRecord :=
  let c := joinedCost products ii.product_id
  { invoice_id := some inv.id
    invoice_number := inv.invoice_number
    product_id := ii.product_id
    product_name := ii.product_name
    size_name := ii.size_name
    color_name := ii.color_name
    quantity := ii.quantity
    unit_price := ii.unit_price
    total_price := ii.total_price
    cost_per_unit := some (c.getD 0)
    profit_per_unit :=
      some (match c with
        | some c => ii.unit_price - c
        | none => ii.unit_price)
    total_profit :=
      some (match c with
        | some c => (ii.unit_price - c) * (ii.quantity : ℚ)
        | none => ii.total_price)
    sale_date := inv.created_at }

/-- Rows of `invoice_items` WHERE invoice_id = id. -/
def itemsOf (st : DBState) (id : String) : List InvoiceItem :=
  st.invoice_items.filter (fun ii => decide (ii.invoice_id = id))

/-- Rows of `sales_records` WHERE invoice_id = id. -/
def recordsOf (st : DBState) (id : String) : List SalesRecord :=
  st.sales_records.filter (fun r => decide (r.invoice_id = some id))

/-- Result rows of the INSERT ... SELECT shared by both trigger functions. -/
def newSalesRecords (st : DBState) (inv : Invoice) : List SalesRecord :=
  (itemsOf st inv.id).map (salesRecordOfItem inv st.products)

/-- Function `create_sales_records_on_invoice`: insert one sales record per
invoice item when the invoice's payment_status is done, otherwise no-op.
Its AFTER INSERT trigger was dropped by the later migration; the function
remains callable. -/
def create_sales_records_on_invoice (st : DBState) (inv : Invoice) : DBState :=
  if inv.payment_status = "done" then
    { st with sales_records := st.sales_records ++ newSalesRecords st inv }
  else st

/-- Function `manage_sales_records_on_invoice_update`, applied to the OLD
status and the NEW row: pending→done inserts the records, done→pending
deletes the invoice's records. -/
def manage_sales_records_on_invoice_update (st : DBState) (oldStatus : String)
    (inv : Invoice) : DBState :=
  let st1 :=
    if oldStatus = "pending" ∧ inv.payment_status = "done" then
      { st with sales_records := st.sales_records ++ newSalesRecords st inv }
    else st
  if oldStatus = "done" ∧ inv.payment_status = "pending" then
    { st1 with
      sales_records := st1.sales_records.filter (fun r => decide (r.invoice_id ≠ some inv.id)) }
  else st1

/-- UPDATE invoices SET payment_status = newStatus WHERE id = id, together
with the AFTER UPDATE trigger `manage_sales_on_invoice_update`, whose WHEN
clause fires only when OLD.payment_status IS DISTINCT FROM
NEW.payment_status. -/
def updatePaymentStatus (st : DBState) (id : String) (newStatus : String) : DBState :=
  match st.invoices.find? (fun i => decide (i.id = id)) with
  | none => st
  | some old =>
    let st' : DBState :=
      { st with
        invoices := st.invoices.map
          (fun i => if i.id = id then { i with payment_status := newStatus } else i) }
    if old.payment_status = newStatus then st'
    else
      manage_sales_records_on_invoice_update st' old.payment_status
        { old with payment_status := newStatus }

/-- INSERT INTO invoices: after the later migration dropped the AFTER INSERT
sales trigger, an invoice insert only adds the row. -/
def insertInvoice (st : DBState) (inv : Invoice) : DBState :=
  { st with invoices := st.invoices ++ [inv] }

/-- INSERT INTO invoice_items. -/
def insertItems (st : DBState) (items : List InvoiceItem) : DBState :=
  { st with invoice_items := st.invoice_items ++ items }

/-- Modelled from the spec: the application-side invoice creation flow that
replaces the dropped AFTER INSERT trigger — insert the invoice row, insert
its items, then create the sales records "manually from the application
after items are inserted" (the materialization itself is the retained SQL
function `create_sales_records_on_invoice`). -/
def appCreateInvoice (st : DBState) (inv : Invoice) (items : List InvoiceItem) : DBState :=
  create_sales_records_on_invoice (insertItems (insertInvoice st inv) items) inv

/-- DELETE FROM invoices WHERE id = id: `invoice_items` rows cascade
(ON DELETE CASCADE); `sales_records` rows are kept with their `invoice_id`
set to NULL (ON DELETE SET NULL). -/
def deleteInvoice (st : DBState) (id : String) : DBState :=
  { st with
    invoices := st.invoices.filter (fun i => decide (i.id ≠ id))
    invoice_items := st.invoice_items.filter (fun ii => decide (ii.invoice_id ≠ id))
    sales_records := st.sales_records.map
      (fun r => if r.invoice_id = some id then { r with invoice_id := none } else r) }

/-! ### Invoice number generation -/

/-- The MAX(CAST(SUBSTRING(invoice_number FROM 'INV-([0-9]+)') AS INTEGER))
over rows WHERE invoice_number ~ 'INV-[0-9]+', with COALESCE(..., 0). -/
def maxInvSuffix (existing : List String) : Nat :=
  (existing.filterMap (fun s => invSuffix s.toList)).foldl max 0

/-- Function `generate_invoice_number`'s computed number:
'INV-' || LPAD(next_number::TEXT, 6, '0'). -/
def generate_invoice_number (existing : List String) : String :=
  "INV-" ++ lpad (decRepr (maxInvSuffix existing + 1)) 6 '0'

/-- BEFORE INSERT trigger `set_invoice_number`: generate a number only when
the inserted invoice_number IS NULL or the empty string. -/
def set_invoice_number (given : Option String) (existing : List String) : String :=
  match given with
  | none => generate_invoice_number existing
  | some s => if s = "" then generate_invoice_number existing else s

/-- Zero-padding to 6 digits with no truncation — the number format as the
claim's words describe it. -/
def zeroPad6 (s : String) : String :=
  if s.length < 6 then ⟨List.replicate (6 - s.length) '0' ++ s.toList⟩ else s

/-- The invoice number as claimed: 'INV-' followed by the successor of the
maximum numeric suffix, zero-padded to 6 digits. -/
def claimInvoiceNumber (existing : List String) : String :=
  "INV-" ++ zeroPad6 (decRepr (maxInvSuffix existing + 1))

/-! ### payment_status column constraint -/

/-- CHECK (payment_status IN ('done', 'pending')): in SQL a CHECK passes
when its condition is NULL, so a NULL value is accepted. -/
def payment_status_check (v : Option String) : Bool :=
  match v with
  | none => true
  | some s => s = "done" ∨ s = "pending"

/-- Stored payment_status of an inserted row: an omitted column takes
DEFAULT 'done'; an explicit value is stored iff the CHECK passes
(`none` result = insert rejected). -/
def insertPaymentStatus (given : Option (Option String)) : Option (Option String) :=
  match given with
  | none => some (some "done")
  | some v => if payment_status_check v then some v else none

/-! ### Analytics: Profits.tsx -/

/-- JavaScript `Number(x)` applied to a nullable numeric column. -/
def numOf (o : Option ℚ) : ℚ :=
  o.getD 0

/-- Entry of the `productProfits` accumulator object in `getProfitData`. -/
structure ProductProfit where
  product_id : Option String
  product_name : String
  total_quantity : ℤ
  total_revenue : ℚ
  total_cost : ℚ
  total_profit : ℚ
  avg_sale_price : ℚ
  avg_cost_price : ℚ
deriving DecidableEq

/-- Fresh zero entry created for a record's product. -/
def freshProfit (r : SalesRecord) : ProductProfit :=
  { product_id := r.product_id
    product_name := r.product_name
    total_quantity := 0
    total_revenue := 0
    total_cost := 0
    total_profit := 0
    avg_sale_price := 0
    avg_cost_price := 0 }

/-- Accumulation of one record: itemCost = Number(cost_per_unit) * quantity,
itemRevenue = Number(total_price), itemProfit = Number(total_profit). -/
def addRecordToProfit (r : SalesRecord) (p : ProductProfit) : ProductProfit :=
  { p with
    total_quantity := p.total_quantity + r.quantity
    total_revenue := p.total_revenue + r.total_price
    total_cost := p.total_cost + numOf r.cost_per_unit * (r.quantity : ℚ)
    total_profit := p.total_profit + numOf r.total_profit }

/-- One step of the `data.forEach` loop on the keyed accumulator object. -/
def profitStep (m : List ProductProfit) (r : SalesRecord) : List ProductProfit :=
  jsUpsert r.product_id (fun p => p.product_id) (freshProfit r) (addRecordToProfit r) m

/-- Second pass of `getProfitData`: avg_sale_price = total_revenue /
total_quantity, avg_cost_price = total_cost / total_quantity. -/
def applyAverages (p : ProductProfit) : ProductProfit :=
  { p with
    avg_sale_price := p.total_revenue / (p.total_quantity : ℚ)
    avg_cost_price := p.total_cost / (p.total_quantity : ℚ) }

/-- Return value of `getProfitData`. -/
structure ProfitData where
  totalProfit : ℚ
  totalRevenue : ℚ
  totalCost : ℚ
  products : List ProductProfit
deriving DecidableEq

/-- `getProfitData` of Profits.tsx on the records of the queried range:
sum revenue and cost, accumulate per-product totals keyed by product_id,
derive the averages, sort by total_profit descending, and return the
overall totals with totalProfit = totalRevenue - totalCost. -/
def getProfitData (records : List SalesRecord) : ProfitData :=
  let totalRevenue := records.foldl (fun a r => a + r.total_price) 0
  let totalCost := records.foldl (fun a r => a + numOf r.cost_per_unit * (r.quantity : ℚ)) 0
  let products := (records.foldl profitStep []).map applyAverages
  { totalProfit := totalRevenue - totalCost
    totalRevenue := totalRevenue
    totalCost := totalCost
    products := jsSortBy (fun a b => decide (b.total_profit ≤ a.total_profit)) products }

/-! ### Analytics: Trending view -/

/-- Entry of the `productStats` accumulator in `getTrendingProducts`. -/
structure TrendStat where
  product_id : Option String
  product_name : String
  total_quantity : ℤ
  total_revenue : ℚ
deriving DecidableEq

/-- Fresh zero entry of the trending reduce. -/
def freshTrend (r : SalesRecord) : TrendStat :=
  { product_id := r.product_id
    product_name := r.product_name
    total_quantity := 0
    total_revenue := 0 }

/-- Accumulation of one record in the trending reduce. -/
def addRecordToTrend (r : SalesRecord) (t : TrendStat) : TrendStat :=
  { t with
    total_quantity := t.total_quantity + r.quantity
    total_revenue := t.total_revenue + r.total_price }

/-- One step of the trending `reduce`, keyed by product_id. -/
def trendStep (m : List TrendStat) (r : SalesRecord) : List TrendStat :=
  jsUpsert r.product_id (fun t => t.product_id) (freshTrend r) (addRecordToTrend r) m

/-- `getTrendingProducts`: reduce the records into per-product stats, then
Object.values(productStats).slice(0, 20). -/
def getTrendingProducts (records : List SalesRecord) : List TrendStat :=
  (records.foldl trendStep []).take 20

/-- The trending view's sort selector. -/
inductive SortKey
  | quantity
  | revenue
deriving DecidableEq

/-- Comparator of `renderTable`: descending by total_quantity when
sortBy = quantity, descending by total_revenue when sortBy = revenue. -/
def trendLe (k : SortKey) (a b : TrendStat) : Bool :=
  match k with
  | SortKey.quantity => decide (b.total_quantity ≤ a.total_quantity)
  | SortKey.revenue => decide (b.total_revenue ≤ a.total_revenue)

/-- The list the trending table displays: `renderTable` sorts the already
truncated result of `getTrendingProducts`. -/
def displayedTrending (k : SortKey) (records : List SalesRecord) : List TrendStat :=
  jsSortBy (trendLe k) (getTrendingProducts records)

/-- The list the claim describes: all per-product stats sorted by the
selected key, truncated to 20 only afterwards. -/
def claimTrending (k : SortKey) (records : List SalesRecord) : List TrendStat :=
  (jsSortBy (trendLe k) (records.foldl trendStep [])).take 20

/-! ### Analytics: ProductSales view -/

/-- Entry of the `productMap` in the ProductSales queryFn. -/
structure ProductSale where
  name : String
  quantity : ℤ
  revenue : ℚ
deriving DecidableEq

/-- Fresh zero entry of the product-sales aggregation. -/
def freshSale (r : SalesRecord) : ProductSale :=
  { name := r.product_name, quantity := 0, revenue := 0 }

/-- Accumulation of one record in the product-sales aggregation. -/
def addRecordToSale (r : SalesRecord) (s : ProductSale) : ProductSale :=
  { s with quantity := s.quantity + r.quantity, revenue := s.revenue + r.total_price }

/-- One step of the `records.forEach` loop: the Map is keyed by
record.product_name (the query selects only product_name, quantity and
total_price). -/
def saleStep (m : List ProductSale) (r : SalesRecord) : List ProductSale :=
  jsUpsert r.product_name (fun s => s.name) (freshSale r) (addRecordToSale r) m

/-- The ProductSales queryFn aggregation: early return [] on no records,
group by product_name, sort by revenue descending. -/
def productSales (records : List SalesRecord) : List ProductSale :=
  if records.isEmpty then []
  else jsSortBy (fun a b => decide (b.revenue ≤ a.revenue)) (records.foldl saleStep [])

/-- The grouping key the claim describes for the product-sales view:
product_id, with product_name as the key only when product_id is absent. -/
def claimSaleKey (r : SalesRecord) : String ⊕ String :=
  match r.product_id with
  | some pid => Sum.inl pid
  | none => Sum.inr r.product_name

/-- The distinct grouping keys, in first-appearance order, that grouping by
`claimSaleKey` would produce. -/
def claimSaleGroups (records : List SalesRecord) : List (String ⊕ String) :=
  records.foldl
    (fun (ks : List (String ⊕ String)) r =>
      if ks.any (fun k => decide (k = claimSaleKey r)) then ks else ks ++ [claimSaleKey r]) []

/-! ### Generic lemmas: stable sort -/

theorem mem_insertLe {α : Type} {le : α → α → Bool} {a x : α} :
    ∀ {l : List α}, a ∈ insertLe le x l ↔ a = x ∨ a ∈ l := by
  intro l
  induction l with
  | nil => simp [insertLe]
  | cons b bs ih =>
    by_cases h : le x b
    · simp [insertLe, h, List.mem_cons]
    · simp only [insertLe, h, if_neg, Bool.false_eq_true, not_false_eq_true, List.mem_cons, ih]
      tauto

theorem insertLe_perm {α : Type} (le : α → α → Bool) (x : α) :
    ∀ (l : List α), (insertLe le x l).Perm (x :: l) := by
  intro l
  induction l with
  | nil => simp [insertLe]
  | cons b bs ih =>
    by_cases h : le x b
    · simp [insertLe, h]
    · simp only [insertLe, h, if_neg, Bool.false_eq_true, not_false_eq_true]
      exact (ih.cons b).trans (List.Perm.swap x b bs)

theorem jsSortBy_perm {α : Type} (le : α → α → Bool) :
    ∀ (l : List α), (jsSortBy le l).Perm l := by
  intro l
  induction l with
  | nil => simp [jsSortBy]
  | cons a as ih => exact (insertLe_perm le a (jsSortBy le as)).trans (ih.cons a)

theorem mem_jsSortBy {α : Type} {le : α → α → Bool} {a : α} {l : List α} :
    a ∈ jsSortBy le l ↔ a ∈ l :=
  (jsSortBy_perm le l).mem_iff

theorem insertLe_pairwise {α : Type} {le : α → α → Bool}
    (htrans : ∀ a b c, le a b = true → le b c = true → le a c = true)
    (htot : ∀ a b, le a b = false → le b a = true) (x : α) :
    ∀ {l : List α}, List.Pairwise (fun a b => le a b = true) l →
      List.Pairwise (fun a b => le a b = true) (insertLe le x l) := by
  intro l
  induction l with
  | nil => intro _; simp [insertLe]
  | cons b bs ih =>
    intro h
    rcases List.pairwise_cons.mp h with ⟨hb, hbs⟩
    by_cases hle : le x b
    · simp only [insertLe, hle, if_pos]
      refine List.pairwise_cons.mpr ⟨?_, h⟩
      intro y hy
      rcases List.mem_cons.mp hy with rfl | hy
      · exact hle
      · exact htrans x b y hle (hb y hy)
    · simp only [insertLe, hle, if_neg, Bool.false_eq_true, not_false_eq_true]
      refine List.pairwise_cons.mpr ⟨?_, ih hbs⟩
      intro y hy
      rcases mem_insertLe.mp hy with h | hy
      · cases h
        exact htot x b (Bool.eq_false_iff.mpr hle)
      · exact hb y hy

theorem jsSortBy_pairwise {α : Type} {le : α → α → Bool}
    (htrans : ∀ a b c, le a b = true → le b c = true → le a c = true)
    (htot : ∀ a b, le a b = false → le b a = true) :
    ∀ (l : List α), List.Pairwise (fun a b => le a b = true) (jsSortBy le l) := by
  intro l
  induction l with
  | nil => simp [jsSortBy]
  | cons a as ih => exact insertLe_pairwise htrans htot a ih

/-! ### Generic lemmas: jsUpsert -/

theorem mem_jsUpsert {α κ : Type} [DecidableEq κ] {k : κ} {key : α → κ} {init : α}
    {f : α → α} {y : α} :
    ∀ {m : List α}, y ∈ jsUpsert k key init f m →
      (∃ x ∈ m, y = f x) ∨ y ∈ m ∨ y = f init := by
  intro m
  induction m with
  | nil =>
    intro h
    simp only [jsUpsert, List.mem_singleton] at h
    exact Or.inr (Or.inr h)
  | cons x xs ih =>
    intro h
    by_cases hk : key x = k
    · simp only [jsUpsert, hk, if_pos, List.mem_cons] at h
      rcases h with rfl | h
      · exact Or.inl ⟨x, List.mem_cons_self x xs, rfl⟩
      · exact Or.inr (Or.inl (List.mem_cons_of_mem x h))
    · simp only [jsUpsert, hk, if_neg, not_false_eq_true, List.mem_cons] at h
      rcases h with rfl | h
      · exact Or.inr (Or.inl (List.mem_cons_self y xs))
      · rcases ih h with ⟨z, hz, rfl⟩ | h | h
        · exact Or.inl ⟨z, List.mem_cons_of_mem x hz, rfl⟩
        · exact Or.inr (Or.inl (List.mem_cons_of_mem x h))
        · exact Or.inr (Or.inr h)

/-- Filtered sum over an upserted entry list: the measure `g` of the entry
with key `k` grows by `δ`, every other key is untouched. -/
theorem sumBy_jsUpsert {α κ M : Type} [DecidableEq κ] [AddCommMonoid M]
    (k : κ) (key : α → κ) (init : α) (f : α → α) (g : α → M) (δ : M) (n : κ)
    (hfkey : ∀ x, key (f x) = key x) (hikey : key init = k)
    (hg : ∀ x, g (f x) = g x + δ) (hgi : g init = 0) :
    ∀ (m : List α),
      (((jsUpsert k key init f m).filter (fun x => decide (key x = n))).map g).sum =
        ((m.filter (fun x => decide (key x = n))).map g).sum + (if k = n then δ else 0) := by
  intro m
  induction m with
  | nil =>
    by_cases hkn : k = n
    · simp [jsUpsert, List.filter, hfkey, hikey, hkn, hg, hgi]
    · simp [jsUpsert, List.filter, hfkey, hikey, hkn, hg, hgi]
  | cons x xs ih =>
    by_cases hk : key x = k
    · simp only [jsUpsert, hk, if_pos]
      by_cases hn : key x = n
      · have hkn : k = n := hk ▸ hn
        simp [List.filter_cons, hfkey, hn, hg, hkn]
        abel
      · have hkn : ¬ k = n := fun h => hn (hk.trans h)
        simp [List.filter_cons, hfkey, hn, hkn]
    · simp only [jsUpsert, hk, if_neg, not_false_eq_true]
      by_cases hn : key x = n
      · simp [List.filter_cons, hn, ih]
        abel
      · simp [List.filter_cons, hn, ih]

/-- The keys of an upserted entry list are the old keys, possibly with `k`
appended. -/
theorem map_key_jsUpsert {α κ : Type} [DecidableEq κ] (k : κ) (key : α → κ)
    (init : α) (f : α → α) (hfkey : ∀ x, key (f x) = key x) (hikey : key init = k) :
    ∀ (m : List α),
      (jsUpsert k key init f m).map key = m.map key ∨
        (jsUpsert k key init f m).map key = m.map key ++ [k] := by
  intro m
  induction m with
  | nil => simp [jsUpsert, hfkey, hikey]
  | cons x xs ih =>
    by_cases hk : key x = k
    · simp [jsUpsert, hk, hfkey]
    · rcases ih with h | h

      · exact Or.inl (by simp [jsUpsert, hk, h])
      · exact Or.inr (by simp [jsUpsert, hk, h])

theorem nodup_key_jsUpsert {α κ : Type} [DecidableEq κ] {k : κ} {key : α → κ}
    {init : α} {f : α → α} (hfkey : ∀ x, key (f x) = key x) (hikey : key init = k)
    {m : List α} (h : (m.map key).Nodup) :
    ((jsUpsert k key init f m).map key).Nodup := by
  induction m with
  | nil => simp [jsUpsert, hfkey, hikey]
  | cons x xs ih =>
    simp only [List.map_cons, List.nodup_cons] at h
    by_cases hk : key x = k
    · simpa [jsUpsert, hk, hfkey] using h
    · simp only [jsUpsert, hk, if_neg, not_false_eq_true, List.map_cons, List.nodup_cons]
      refine ⟨?_, ih h.2⟩
      rcases map_key_jsUpsert k key init f hfkey hikey xs with hkeys | hkeys
      · rw [hkeys]; exact h.1
      · rw [hkeys]
        simp only [List.mem_append, List.mem_singleton]
        rintro (hx | rfl)
        · exact h.1 hx
        · exact hk rfl

/-- Every key present before an upsert, and `k` itself, is present after. -/
theorem key_mem_jsUpsert {α κ : Type} [DecidableEq κ] (k : κ) (key : α → κ)
    (init : α) (f : α → α) (hfkey : ∀ x, key (f x) = key x) (hikey : key init = k) :
    ∀ (m : List α) (n : κ), (n ∈ m.map key ∨ n = k) → n ∈ (jsUpsert k key init f m).map key := by
  intro m
  induction m with
  | nil =>
    intro n h
    rcases h with h | rfl
    · simp at h
    · simp [jsUpsert, hfkey, hikey]
  | cons x xs ih =>
    intro n h
    by_cases hk : key x = k
    · simp only [jsUpsert, hk, if_pos, List.map_cons, List.mem_cons, hfkey]
      rcases h with h | rfl
      · simp only [List.map_cons, List.mem_cons] at h
        rcases h with h | h
        · exact Or.inl (h.trans hk)
        · exact Or.inr h
      · exact Or.inl rfl
    · simp only [jsUpsert, hk, if_neg, not_false_eq_true, List.map_cons, List.mem_cons]
      rcases h with h | rfl
      · simp only [List.map_cons, List.mem_cons] at h
        rcases h with h | h
        · exact Or.inl h
        · exact Or.inr (ih n (Or.inl h))
      · exact Or.inr (ih n (Or.inr rfl))

/-! ### Generic lemmas: folds and sums -/

theorem foldl_add_map_sum {α M : Type} [AddCommMonoid M] (f : α → M) :
    ∀ (l : List α) (a : M), l.foldl (fun acc r => acc + f r) a = a + (l.map f).sum := by
  intro l
  induction l with
  | nil => simp
  | cons x xs ih => intro a; simp [ih, add_assoc]

theorem sum_map_filter_eq_sum_ite {α M : Type} [AddCommMonoid M] (g : α → M)
    (p : α → Bool) :
    ∀ (l : List α), ((l.filter p).map g).sum = (l.map (fun x => if p x then g x else 0)).sum := by
  intro l
  induction l with
  | nil => simp
  | cons x xs ih =>
    by_cases h : p x
    · simp [List.filter_cons, h, ih]
    · simp [List.filter_cons, h, ih]

/-! ### Generic lemmas: decimal rendering length -/

theorem decDigits_length_le :
    ∀ (fuel n k : Nat), n < fuel → n < 10 ^ k → 1 ≤ k → (decDigits fuel n).length ≤ k := by
  intro fuel
  induction fuel with
  | zero => intro n k h; omega
  | succ fuel ih =>
    intro n k hfuel hk hk1
    by_cases h10 : n < 10
    · simpa [decDigits, h10] using hk1
    · have hk2 : 2 ≤ k := by
        by_contra hlt
        have : k = 1 := by omega
        subst this
        simp at hk
        omega
      have hdiv : n / 10 < fuel := by
        have : n / 10 < n := Nat.div_lt_self (by omega) (by omega)
        omega
      have hpow : n / 10 < 10 ^ (k - 1) := by
        have h1 : n < 10 ^ (k - 1) * 10 := by
          have : 10 ^ (k - 1) * 10 = 10 ^ k := by
            have : k - 1 + 1 = k := by omega
            calc 10 ^ (k - 1) * 10 = 10 ^ (k - 1 + 1) := by rw [pow_succ]
            _ = 10 ^ k := by rw [this]
          omega
        exact Nat.div_lt_of_lt_mul (by omega)
      have := ih (n / 10) (k - 1) hdiv hpow (by omega)
      simp only [decDigits, h10, if_neg, not_false_eq_true, List.length_append,
        List.length_singleton]
      omega

/-! ### Lemmas about the materializer state -/

theorem newSalesRecords_invoice_id (st : DBState) (inv : Invoice) :
    ∀ r ∈ newSalesRecords st inv, r.invoice_id = some inv.id := by
  intro r hr
  rcases List.mem_map.mp hr with ⟨ii, _, rfl⟩
  rfl

theorem filter_newSalesRecords_self (st : DBState) (inv : Invoice) :
    (newSalesRecords st inv).filter (fun r => decide (r.invoice_id = some inv.id)) =
      newSalesRecords st inv := by
  refine List.filter_eq_self.mpr ?_
  intro r hr
  simp [newSalesRecords_invoice_id st inv r hr]

theorem filter_newSalesRecords_nil (st : DBState) (inv : Invoice) {j : String}
    (h : j ≠ inv.id) :
    (newSalesRecords st inv).filter (fun r => decide (r.invoice_id = some j)) = [] := by
  refine List.filter_eq_nil_iff.mpr ?_
  intro r hr
  simp [newSalesRecords_invoice_id st inv r hr]
  exact fun hh => h hh.symm

theorem length_newSalesRecords (st : DBState) (inv : Invoice) :
    (newSalesRecords st inv).length = (itemsOf st inv.id).length :=
  List.length_map _ _

/-- Two entries of a list with duplicate-free keys that agree on their key
are equal. -/
theorem key_unique {α κ : Type} (key : α → κ) :
    ∀ {l : List α}, (l.map key).Nodup →
      ∀ {a b : α}, a ∈ l → b ∈ l → key a = key b → a = b := by
  intro l
  induction l with
  | nil => intro _ a b ha; simp at ha
  | cons x xs ih =>
    intro h a b ha hb hk
    simp only [List.map_cons, List.nodup_cons] at h
    rcases List.mem_cons.mp ha with ha | ha
    · rcases List.mem_cons.mp hb with hb | hb
      · exact ha.trans hb.symm
      · have hx : key x ∈ List.map key xs := by
          rw [← ha, hk]
          exact List.mem_map_of_mem key hb
        exact absurd hx h.1
    · rcases List.mem_cons.mp hb with hb | hb
      · have hx : key x ∈ List.map key xs := by
          rw [← hb, ← hk]
          exact List.mem_map_of_mem key ha
        exact absurd hx h.1
      · exact ih h.2 ha hb hk

/-- find? over an id-preserving transformation of the rows. -/
theorem find?_map_id_preserving (f : Invoice → Invoice) (id : String)
    (hf : ∀ i, (f i).id = i.id) :
    ∀ (l : List Invoice),
      (l.map f).find? (fun i => decide (i.id = id)) =
        (l.find? (fun i => decide (i.id = id))).map f := by
  intro l
  induction l with
  | nil => simp
  | cons x xs ih =>
    by_cases h : x.id = id
    · simp [List.find?_cons, hf, h]
    · simp [List.find?_cons, hf, h, ih]

/-! ### Reachable states and the materializer invariant -/

/-- The inductive invariant of the materializer: invoice ids are unique,
payment statuses are valid, pending invoices have no sales records and done
invoices have exactly one sales record per item. -/
def GoodState (st : DBState) : Prop :=
  (st.invoices.map (fun i => i.id)).Nodup ∧
  (∀ inv ∈ st.invoices, inv.payment_status = "pending" ∨ inv.payment_status = "done") ∧
  ∀ inv ∈ st.invoices,
    (inv.payment_status = "pending" → recordsOf st inv.id = []) ∧
    (inv.payment_status = "done" →
      (recordsOf st inv.id).length = (itemsOf st inv.id).length)

/-- States reachable by the transitions the invariant claim quantifies
over: invoice creation with either status (pending: plain insert of the row
and its items; done: the application flow that also materializes), and
payment_status updates.  A freshly created invoice has a fresh id, which by
the foreign keys cannot be referenced by pre-existing items or records. -/
inductive Reachable : DBState → Prop
  | empty (ps : List Product) :
      Reachable { invoices := [], invoice_items := [], sales_records := [], products := ps }
  | createPending (st : DBState) (inv : Invoice) (items : List InvoiceItem) :
      Reachable st →
      inv.payment_status = "pending" →
      (∀ i ∈ st.invoices, i.id ≠ inv.id) →
      itemsOf st inv.id = [] →
      recordsOf st inv.id = [] →
      (∀ ii ∈ items, ii.invoice_id = inv.id) →
      Reachable (insertItems (insertInvoice st inv) items)
  | createDone (st : DBState) (inv : Invoice) (items : List InvoiceItem) :
      Reachable st →
      inv.payment_status = "done" →
      (∀ i ∈ st.invoices, i.id ≠ inv.id) →
      itemsOf st inv.id = [] →
      recordsOf st inv.id = [] →
      (∀ ii ∈ items, ii.invoice_id = inv.id) →
      Reachable (appCreateInvoice st inv items)
  | updateStatus (st : DBState) (id newStatus : String) :
      Reachable st →
      (newStatus = "pending" ∨ newStatus = "done") →
      Reachable (updatePaymentStatus st id newStatus)

/-! ### Behaviour equations of updatePaymentStatus -/

theorem updatePaymentStatus_none {st : DBState} {id newStatus : String}
    (h : st.invoices.find? (fun i => decide (i.id = id)) = none) :
    updatePaymentStatus st id newStatus = st := by
  simp [updatePaymentStatus, h]

theorem updatePaymentStatus_noop {st : DBState} {id newStatus : String} {old : Invoice}
    (hnodup : (st.invoices.map (fun i => i.id)).Nodup)
    (h : st.invoices.find? (fun i => decide (i.id = id)) = some old)
    (heq : old.payment_status = newStatus) :
    updatePaymentStatus st id newStatus = st := by
  have homem : old ∈ st.invoices := List.mem_of_find?_eq_some h
  have hoid : old.id = id := by simpa using List.find?_some h
  have hcongr : ∀ i ∈ st.invoices,
      (if i.id = id then { i with payment_status := newStatus } else i) = i := by
    intro i hi
    by_cases hid : i.id = id
    · have hio : i = old := key_unique (fun i => i.id) hnodup hi homem (hid.trans hoid.symm)
      subst hio
      rw [if_pos hid, ← heq]
    · simp [hid]
  have hmap : st.invoices.map
      (fun i => if i.id = id then { i with payment_status := newStatus } else i) =
      st.invoices := by
    simpa using List.map_congr_left hcongr
  simp [updatePaymentStatus, h, heq, hmap]

theorem updatePaymentStatus_pending_done {st : DBState} {id : String} {old : Invoice}
    (h : st.invoices.find? (fun i => decide (i.id = id)) = some old)
    (hold : old.payment_status = "pending") :
    updatePaymentStatus st id "done" =
      { invoices := st.invoices.map
          (fun i => if i.id = id then { i with payment_status := "done" } else i)
        invoice_items := st.invoice_items
        sales_records := st.sales_records ++
          (itemsOf st id).map (salesRecordOfItem { old with payment_status := "done" } st.products)
        products := st.products } := by
  have hoid : old.id = id := by simpa using List.find?_some h
  have hne : ¬ old.payment_status = "done" := by rw [hold]; decide
  simp [updatePaymentStatus, h, hne, manage_sales_records_on_invoice_update, hold,
    newSalesRecords, itemsOf, hoid]

theorem updatePaymentStatus_done_pending {st : DBState} {id : String} {old : Invoice}
    (h : st.invoices.find? (fun i => decide (i.id = id)) = some old)
    (hold : old.payment_status = "done") :
    updatePaymentStatus st id "pending" =
      { invoices := st.invoices.map
          (fun i => if i.id = id then { i with payment_status := "pending" } else i)
        invoice_items := st.invoice_items
        sales_records := st.sales_records.filter (fun r => decide (r.invoice_id ≠ some id))
        products := st.products } := by
  have hoid : old.id = id := by simpa using List.find?_some h
  have hne : ¬ old.payment_status = "pending" := by rw [hold]; decide
  simp [updatePaymentStatus, h, hne, manage_sales_records_on_invoice_update, hold, hoid]

/-! ### Preservation of the invariant -/

theorem itemsOf_insertPI (st : DBState) (inv : Invoice) (items : List InvoiceItem)
    (j : String) :
    itemsOf (insertItems (insertInvoice st inv) items) j =
      itemsOf st j ++ items.filter (fun ii => decide (ii.invoice_id = j)) := by
  simp [itemsOf, insertItems, insertInvoice, List.filter_append]

theorem recordsOf_insertPI (st : DBState) (inv : Invoice) (items : List InvoiceItem)
    (j : String) :
    recordsOf (insertItems (insertInvoice st inv) items) j = recordsOf st j := rfl

theorem filter_items_nil {items : List InvoiceItem} {invId j : String}
    (hitems : ∀ ii ∈ items, ii.invoice_id = invId) (hj : j ≠ invId) :
    items.filter (fun ii => decide (ii.invoice_id = j)) = [] := by
  refine List.filter_eq_nil_iff.mpr ?_
  intro ii hii
  simp [hitems ii hii]
  exact fun hh => hj hh.symm

theorem nodup_ids_append {st : DBState} {inv : Invoice}
    (hnodup : (st.invoices.map (fun i => i.id)).Nodup)
    (hfresh : ∀ i ∈ st.invoices, i.id ≠ inv.id) :
    ((st.invoices ++ [inv]).map (fun i => i.id)).Nodup := by
  rw [List.map_append]
  rw [List.nodup_append]
  refine ⟨hnodup, by simp, ?_⟩
  intro a ha hb
  rcases List.mem_map.mp ha with ⟨i, hi, rfl⟩
  simp only [List.map_cons, List.map_nil, List.mem_singleton] at hb
  exact hfresh i hi hb

theorem goodState_createPending (st : DBState) (inv : Invoice) (items : List InvoiceItem)
    (ih : GoodState st)
    (hstatus : inv.payment_status = "pending")
    (hfresh : ∀ i ∈ st.invoices, i.id ≠ inv.id)
    (hrec0 : recordsOf st inv.id = [])
    (hitems : ∀ ii ∈ items, ii.invoice_id = inv.id) :
    GoodState (insertItems (insertInvoice st inv) items) := by
  obtain ⟨hnodup, hvalid, hmain⟩ := ih
  have hinvs : (insertItems (insertInvoice st inv) items).invoices = st.invoices ++ [inv] := rfl
  refine ⟨?_, ?_, ?_⟩
  · rw [hinvs]
    exact nodup_ids_append hnodup hfresh
  · intro j hj
    rw [hinvs] at hj
    rcases List.mem_append.mp hj with hj | hj
    · exact hvalid j hj
    · simp only [List.mem_singleton] at hj
      subst hj
      exact Or.inl hstatus
  · intro j hj
    rw [hinvs] at hj
    rcases List.mem_append.mp hj with hj | hj
    · refine ⟨?_, ?_⟩
      · intro hp
        rw [recordsOf_insertPI]
        exact (hmain j hj).1 hp
      · intro hd
        rw [recordsOf_insertPI, itemsOf_insertPI,
          filter_items_nil hitems (hfresh j hj), List.append_nil]
        exact (hmain j hj).2 hd
    · simp only [List.mem_singleton] at hj
      subst hj
      refine ⟨?_, ?_⟩
      · intro _
        rw [recordsOf_insertPI]
        exact hrec0
      · intro hd
        rw [hstatus] at hd
        exact absurd hd (by decide)

theorem appCreateInvoice_done_eq (st : DBState) (inv : Invoice) (items : List InvoiceItem)
    (hstatus : inv.payment_status = "done") :
    appCreateInvoice st inv items =
      { invoices := st.invoices ++ [inv]
        invoice_items := st.invoice_items ++ items
        sales_records := st.sales_records ++
          newSalesRecords (insertItems (insertInvoice st inv) items) inv
        products := st.products } := by
  simp [appCreateInvoice, create_sales_records_on_invoice, hstatus, insertItems, insertInvoice,
    newSalesRecords]

theorem newSalesRecords_insertPI (st : DBState) (inv : Invoice) (items : List InvoiceItem)
    (hitems0 : itemsOf st inv.id = [])
    (hitems : ∀ ii ∈ items, ii.invoice_id = inv.id) :
    newSalesRecords (insertItems (insertInvoice st inv) items) inv =
      items.map (salesRecordOfItem inv st.products) := by
  rw [newSalesRecords, itemsOf_insertPI, hitems0, List.nil_append]
  have : items.filter (fun ii => decide (ii.invoice_id = inv.id)) = items := by
    refine List.filter_eq_self.mpr ?_
    intro ii hii
    simp [hitems ii hii]
  rw [this]
  rfl

theorem goodState_createDone (st : DBState) (inv : Invoice) (items : List InvoiceItem)
    (ih : GoodState st)
    (hstatus : inv.payment_status = "done")
    (hfresh : ∀ i ∈ st.invoices, i.id ≠ inv.id)
    (hitems0 : itemsOf st inv.id = [])
    (hrec0 : recordsOf st inv.id = [])
    (hitems : ∀ ii ∈ items, ii.invoice_id = inv.id) :
    GoodState (appCreateInvoice st inv items) := by
  obtain ⟨hnodup, hvalid, hmain⟩ := ih
  rw [appCreateInvoice_done_eq st inv items hstatus]
  set st2 := insertItems (insertInvoice st inv) items with hst2
  have hrecof : ∀ j, recordsOf
      { invoices := st.invoices ++ [inv], invoice_items := st.invoice_items ++ items,
        sales_records := st.sales_records ++ newSalesRecords st2 inv,
        products := st.products } j =
      recordsOf st j ++ (newSalesRecords st2 inv).filter (fun r => decide (r.invoice_id = some j)) := by
    intro j
    simp [recordsOf, List.filter_append]
  have hitof : ∀ j, itemsOf
      { invoices := st.invoices ++ [inv], invoice_items := st.invoice_items ++ items,
        sales_records := st.sales_records ++ newSalesRecords st2 inv,
        products := st.products } j =
      itemsOf st j ++ items.filter (fun ii => decide (ii.invoice_id = j)) := by
    intro j
    simp [itemsOf, List.filter_append]
  refine ⟨?_, ?_, ?_⟩
  · exact nodup_ids_append hnodup hfresh
  · intro j hj
    rcases List.mem_append.mp hj with hj | hj
    · exact hvalid j hj
    · simp only [List.mem_singleton] at hj
      subst hj
      exact Or.inr hstatus
  · intro j hj
    rcases List.mem_append.mp hj with hj | hj
    · refine ⟨?_, ?_⟩
      · intro hp
        rw [hrecof, filter_newSalesRecords_nil st2 inv (hfresh j hj), List.append_nil]
        exact (hmain j hj).1 hp
      · intro hd
        rw [hrecof, filter_newSalesRecords_nil st2 inv (hfresh j hj), List.append_nil,
          hitof, filter_items_nil hitems (hfresh j hj), List.append_nil]
        exact (hmain j hj).2 hd
    · simp only [List.mem_singleton] at hj
      subst hj
      refine ⟨?_, ?_⟩
      · intro hp
        rw [hstatus] at hp
        exact absurd hp (by decide)
      · intro _
        rw [hrecof, filter_newSalesRecords_self st2 j, hrec0, List.nil_append,
          hitof, hitems0, List.nil_append]
        rw [newSalesRecords_insertPI st j items hitems0 hitems]
        rw [List.length_map]
        have : items.filter (fun ii => decide (ii.invoice_id = j.id)) = items := by
          refine List.filter_eq_self.mpr ?_
          intro ii hii
          simp [hitems ii hii]
        rw [this]

theorem filter_recs_self {l : List SalesRecord} {v : String}
    (h : ∀ r ∈ l, r.invoice_id = some v) :
    l.filter (fun r => decide (r.invoice_id = some v)) = l := by
  refine List.filter_eq_self.mpr ?_
  intro r hr
  simp [h r hr]

theorem filter_recs_nil {l : List SalesRecord} {v j : String}
    (h : ∀ r ∈ l, r.invoice_id = some v) (hj : j ≠ v) :
    l.filter (fun r => decide (r.invoice_id = some j)) = [] := by
  refine List.filter_eq_nil_iff.mpr ?_
  intro r hr
  simp [h r hr]
  exact fun hh => hj hh.symm

theorem filter_ne_then_eq (l : List SalesRecord) (id v : String) (hv : v ≠ id) :
    (l.filter (fun r => decide (r.invoice_id ≠ some id))).filter
        (fun r => decide (r.invoice_id = some v)) =
      l.filter (fun r => decide (r.invoice_id = some v)) := by
  rw [List.filter_filter]
  refine List.filter_congr ?_
  intro r _
  by_cases h : r.invoice_id = some v
  · have : r.invoice_id ≠ some id := by
      rw [h]
      intro hcon
      exact hv (by injection hcon)
    simp [h, this, hv]
  · simp [h]

theorem filter_ne_then_eq_self (l : List SalesRecord) (id : String) :
    (l.filter (fun r => decide (r.invoice_id ≠ some id))).filter
        (fun r => decide (r.invoice_id = some id)) = [] := by
  rw [List.filter_filter]
  refine List.filter_eq_nil_iff.mpr ?_
  intro r _
  by_cases h : r.invoice_id = some id
  · simp [h]
  · simp [h]

theorem goodState_update (st : DBState) (id newStatus : String)
    (ih : GoodState st) (hnew : newStatus = "pending" ∨ newStatus = "done") :
    GoodState (updatePaymentStatus st id newStatus) := by
  obtain ⟨hnodup, hvalid, hmain⟩ := ih
  cases hfind : st.invoices.find? (fun i => decide (i.id = id)) with
  | none =>
    rw [updatePaymentStatus_none hfind]
    exact ⟨hnodup, hvalid, hmain⟩
  | some old =>
    have homem : old ∈ st.invoices := List.mem_of_find?_eq_some hfind
    have hoid : old.id = id := by simpa using List.find?_some hfind
    by_cases heq : old.payment_status = newStatus
    · rw [updatePaymentStatus_noop hnodup hfind heq]
      exact ⟨hnodup, hvalid, hmain⟩
    · rcases hvalid old homem with hold | hold
      · -- pending → done
        have hnd : newStatus = "done" := by
          rcases hnew with h | h
          · exact absurd (hold.trans h.symm) heq
          · exact h
        subst hnd
        rw [updatePaymentStatus_pending_done hfind hold]
        set f : Invoice → Invoice :=
          fun i => if i.id = id then { i with payment_status := "done" } else i with hf
        have hfid : ∀ i, (f i).id = i.id := by
          intro i
          by_cases hh : i.id = id
          · simp [hf, hh]
          · simp [hf, hh]
        set newRecs := (itemsOf st id).map
          (salesRecordOfItem { old with payment_status := "done" } st.products) with hnr
        have hnewid : ∀ r ∈ newRecs, r.invoice_id = some old.id := by
          intro r hr
          rcases List.mem_map.mp hr with ⟨ii, _, rfl⟩
          rfl
        refine ⟨?_, ?_, ?_⟩
        · show ((st.invoices.map f).map (fun i => i.id)).Nodup
          rw [List.map_map]
          have hmm : st.invoices.map ((fun i => i.id) ∘ f) = st.invoices.map (fun i => i.id) :=
            List.map_congr_left (fun i _ => hfid i)
          rw [hmm]
          exact hnodup
        · intro j hj
          rcases List.mem_map.mp hj with ⟨i, hi, rfl⟩
          by_cases hh : i.id = id
          · right
            show (f i).payment_status = "done"
            simp [hf, hh]
          · have hfi : f i = i := by simp [hf, hh]
            rw [hfi]
            exact hvalid i hi
        · intro j hj
          rcases List.mem_map.mp hj with ⟨i, hi, rfl⟩
          have hrec : ∀ v, recordsOf
              { invoices := st.invoices.map f, invoice_items := st.invoice_items,
                sales_records := st.sales_records ++ newRecs, products := st.products } v =
              recordsOf st v ++ newRecs.filter (fun r => decide (r.invoice_id = some v)) := by
            intro v
            simp [recordsOf, List.filter_append]
          have hit : ∀ v, itemsOf
              { invoices := st.invoices.map f, invoice_items := st.invoice_items,
                sales_records := st.sales_records ++ newRecs, products := st.products } v =
              itemsOf st v := fun v => rfl
          by_cases hh : i.id = id
          · have hio : i = old := key_unique (fun i => i.id) hnodup hi homem (hh.trans hoid.symm)
            subst hio
            have hfst : (f i).payment_status = "done" := by simp [hf, hh]
            refine ⟨?_, ?_⟩
            · intro hp
              rw [hfst] at hp
              exact absurd hp (by decide)
            · intro _
              rw [hfid, hrec, hit]
              rw [(hmain i hi).1 hold, List.nil_append]
              rw [filter_recs_self hnewid]
              rw [hnr, List.length_map, hh]
          · have hfi : f i = i := by simp [hf, hh]
            rw [hfi]
            have hne2 : i.id ≠ old.id := fun hcon => hh (hcon.trans hoid)
            refine ⟨?_, ?_⟩
            · intro hp
              rw [hrec, filter_recs_nil hnewid hne2, List.append_nil]
              exact (hmain i hi).1 hp
            · intro hd
              rw [hrec, filter_recs_nil hnewid hne2, List.append_nil, hit]
              exact (hmain i hi).2 hd
      · -- done → pending
        have hnp : newStatus = "pending" := by
          rcases hnew with h | h
          · exact h
          · exact absurd (hold.trans h.symm) heq
        subst hnp
        rw [updatePaymentStatus_done_pending hfind hold]
        set f : Invoice → Invoice :=
          fun i => if i.id = id then { i with payment_status := "pending" } else i with hf
        have hfid : ∀ i, (f i).id = i.id := by
          intro i
          by_cases hh : i.id = id
          · simp [hf, hh]
          · simp [hf, hh]
        refine ⟨?_, ?_, ?_⟩
        · show ((st.invoices.map f).map (fun i => i.id)).Nodup
          rw [List.map_map]
          have hmm : st.invoices.map ((fun i => i.id) ∘ f) = st.invoices.map (fun i => i.id) :=
            List.map_congr_left (fun i _ => hfid i)
          rw [hmm]
          exact hnodup
        · intro j hj
          rcases List.mem_map.mp hj with ⟨i, hi, rfl⟩
          by_cases hh : i.id = id
          · left
            show (f i).payment_status = "pending"
            simp [hf, hh]
          · have hfi : f i = i := by simp [hf, hh]
            rw [hfi]
            exact hvalid i hi
        · intro j hj
          rcases List.mem_map.mp hj with ⟨i, hi, rfl⟩
          have hrec : ∀ v, recordsOf
              { invoices := st.invoices.map f, invoice_items := st.invoice_items,
                sales_records :=
                  st.sales_records.filter (fun r => decide (r.invoice_id ≠ some id)),
                products := st.products } v =
              (st.sales_records.filter (fun r => decide (r.invoice_id ≠ some id))).filter
                (fun r => decide (r.invoice_id = some v)) := fun v => rfl
          have hit : ∀ v, itemsOf
              { invoices := st.invoices.map f, invoice_items := st.invoice_items,
                sales_records :=
                  st.sales_records.filter (fun r => decide (r.invoice_id ≠ some id)),
                products := st.products } v =
              itemsOf st v := fun v => rfl
          by_cases hh : i.id = id
          · have hfst : (f i).payment_status = "pending" := by simp [hf, hh]
            refine ⟨?_, ?_⟩
            · intro _
              rw [hfid, hrec, hh]
              exact filter_ne_then_eq_self _ id
            · intro hd
              rw [hfst] at hd
              exact absurd hd (by decide)
          · have hfi : f i = i := by simp [hf, hh]
            rw [hfi]
            refine ⟨?_, ?_⟩
            · intro hp
              rw [hrec, filter_ne_then_eq _ id i.id hh]
              exact (hmain i hi).1 hp
            · intro hd
              rw [hrec, filter_ne_then_eq _ id i.id hh, hit]
              exact (hmain i hi).2 hd

/-- Every reachable state satisfies the materializer invariant. -/
theorem goodState_of_reachable {st : DBState} (h : Reachable st) : GoodState st := by
  induction h with
  | empty ps =>
    refine ⟨by simp, by simp, by simp⟩
  | createPending st inv items _ hstatus hfresh hitems0 hrec0 hitems ih =>
    exact goodState_createPending st inv items ih hstatus hfresh hrec0 hitems
  | createDone st inv items _ hstatus hfresh hitems0 hrec0 hitems ih =>
    exact goodState_createDone st inv items ih hstatus hfresh hitems0 hrec0 hitems
  | updateStatus st id newStatus _ hnew ih =>
    exact goodState_update st id newStatus ih hnew

/-! ### Concrete rows used by examples, witnesses and counterexamples -/

/-- A pending invoice row. -/
def invP : Invoice :=
  { id := "i1", invoice_number := "INV-000001", payment_status := "pending", created_at := 5 }

/-- The same invoice row with payment_status done. -/
def invD : Invoice :=
  { invP with payment_status := "done" }

/-- An invoice item of invoice i1. -/
def item1 : InvoiceItem :=
  { invoice_id := "i1", product_id := some "p1", product_name := "Shirt",
    size_name := some "M", color_name := some "Red", quantity := 2,
    unit_price := 100, total_price := 200 }

/-- The product the item references. -/
def prod1 : Product :=
  { id := "p1", cost_inr := some 60 }

/-! ### C1 -/

/-- A zero-item invoice created pending and then transitioned pending→done:
its payment_status is done but it has no sales records. -/
def c1State : DBState :=
  updatePaymentStatus
    (insertItems (insertInvoice ⟨[], [], [], []⟩ invP) []) "i1" "done"

/-- C1, counterexample: the claimed invariant — the sales records of an
invoice are non-empty if and only if its payment_status is done — fails on
a reachable state: an invoice with no items transitioned pending→done is
done yet has no sales records. -/
theorem c1_counterexample :
    ¬ ∀ st : DBState, Reachable st → ∀ inv ∈ st.invoices,
        (recordsOf st inv.id ≠ [] ↔ inv.payment_status = "done") := by
  intro hclaim
  have hr : Reachable c1State :=
    Reachable.updateStatus _ "i1" "done"
      (Reachable.createPending _ invP []
        (Reachable.empty []) rfl (by decide) rfl rfl (by decide))
      (Or.inr rfl)
  have hmem : invD ∈ c1State.invoices := by decide
  have h2 : recordsOf c1State invD.id = [] := by decide
  exact (hclaim c1State hr invD hmem).mpr (by decide) h2

/-- C1 (amended): in every state reachable by invoice creation (with either
status) and payment_status updates, an invoice with sales records is done,
a pending invoice has no sales records, a done invoice has exactly one
sales record per invoice item — hence non-emptiness is equivalent to being
done whenever the invoice has at least one item. -/
theorem c1_invariant {st : DBState} (h : Reachable st) :
    ∀ inv ∈ st.invoices,
      (recordsOf st inv.id ≠ [] → inv.payment_status = "done") ∧
      (inv.payment_status = "pending" → recordsOf st inv.id = []) ∧
      (inv.payment_status = "done" →
        (recordsOf st inv.id).length = (itemsOf st inv.id).length) ∧
      (inv.payment_status = "done" → itemsOf st inv.id ≠ [] → recordsOf st inv.id ≠ []) := by
  intro inv hmem
  obtain ⟨hnodup, hvalid, hmain⟩ := goodState_of_reachable h
  obtain ⟨h1, h2⟩ := hmain inv hmem
  refine ⟨?_, h1, h2, ?_⟩
  · intro hne
    rcases hvalid inv hmem with hp | hd
    · exact absurd (h1 hp) hne
    · exact hd
  · intro hd hitems hcon
    have hlen := h2 hd
    rw [hcon] at hlen
    simp only [List.length_nil] at hlen
    exact hitems (List.length_eq_zero.mp hlen.symm)

/-- A reachable state with one item on the invoice, for the C1 witness. -/
def c1WitnessState : DBState :=
  updatePaymentStatus
    (insertItems (insertInvoice ⟨[], [], [], [prod1]⟩ invP) [item1]) "i1" "done"

/-- Witness for C1: a concrete reachable state with a done invoice holding
one item, at which the amended invariant is instantiated. -/
theorem c1_witness :
    invD ∈ c1WitnessState.invoices ∧
    (recordsOf c1WitnessState invD.id).length = (itemsOf c1WitnessState invD.id).length := by
  have hr : Reachable c1WitnessState :=
    Reachable.updateStatus _ "i1" "done"
      (Reachable.createPending _ invP [item1]
        (Reachable.empty [prod1]) rfl (by decide) rfl rfl (by decide))
      (Or.inr rfl)
  have hmem : invD ∈ c1WitnessState.invoices := by decide
  exact ⟨hmem, (c1_invariant hr invD hmem).2.2.1 (by decide)⟩

/-! ### C2 -/

/-- The sales record the C2 claim describes for one invoice item: copy the
item's product/name/size/color/quantity/prices, take the referenced
product's current cost (0 if the product is missing or its cost is null),
profit_per_unit = unit_price − cost falling back to unit_price when the
cost is null, total_profit = profit_per_unit × quantity falling back to
total_price when the cost is null, sale_date = the invoice's creation
timestamp. -/
def specSalesRecord (inv : Invoice) (products : List Product) (ii : InvoiceItem) :
    SalesRecord :=
  let c := joinedCost products ii.product_id
  let cost : ℚ := c.getD 0
  { invoice_id := some inv.id
    invoice_number := inv.invoice_number
    product_id := ii.product_id
    product_name := ii.product_name
    size_name := ii.size_name
    color_name := ii.color_name
    quantity := ii.quantity
    unit_price := ii.unit_price
    total_price := ii.total_price
    cost_per_unit := some cost
    profit_per_unit := some (if c.isSome then ii.unit_price - cost else ii.unit_price)
    total_profit :=
      some (if c.isSome then (ii.unit_price - cost) * (ii.quantity : ℚ) else ii.total_price)
    sale_date := inv.created_at }

theorem salesRecordOfItem_eq_spec (inv : Invoice) (ps : List Product) (ii : InvoiceItem) :
    salesRecordOfItem inv ps ii = specSalesRecord inv ps ii := by
  unfold salesRecordOfItem specSalesRecord
  cases h : joinedCost ps ii.product_id with
  | none => simp [h]
  | some c => simp [h]

/-- C2: whenever an invoice with its items enters the done state — by a
pending→done update, or by the application creation flow for an invoice
created done — exactly one sales record per invoice item is inserted, and
each is exactly the record the claim describes (fields copied from the
item, snapshot cost with 0/`unit_price`/`total_price` fallbacks for a
missing cost, sale_date = invoice creation timestamp). -/
theorem c2_materialization :
    (∀ (st : DBState) (id : String) (inv : Invoice),
      st.invoices.find? (fun i => decide (i.id = id)) = some inv →
      inv.payment_status = "pending" →
      recordsOf st id = [] →
      recordsOf (updatePaymentStatus st id "done") id =
        (itemsOf st id).map (specSalesRecord inv st.products) ∧
      (recordsOf (updatePaymentStatus st id "done") id).length = (itemsOf st id).length) ∧
    (∀ (st : DBState) (inv : Invoice) (items : List InvoiceItem),
      inv.payment_status = "done" →
      itemsOf st inv.id = [] →
      recordsOf st inv.id = [] →
      (∀ ii ∈ items, ii.invoice_id = inv.id) →
      recordsOf (appCreateInvoice st inv items) inv.id =
        items.map (specSalesRecord inv st.products) ∧
      (recordsOf (appCreateInvoice st inv items) inv.id).length = items.length) := by
  constructor
  · intro st id inv hfind hpend hrec0
    have hoid : inv.id = id := by simpa using List.find?_some hfind
    rw [updatePaymentStatus_pending_done hfind hpend]
    set newRecs := (itemsOf st id).map
      (salesRecordOfItem { inv with payment_status := "done" } st.products) with hnr
    have hnewid : ∀ r ∈ newRecs, r.invoice_id = some id := by
      intro r hr
      rcases List.mem_map.mp hr with ⟨ii, _, rfl⟩
      show some inv.id = some id
      rw [hoid]
    have hrec : recordsOf
        { invoices := st.invoices.map
            (fun i => if i.id = id then { i with payment_status := "done" } else i),
          invoice_items := st.invoice_items,
          sales_records := st.sales_records ++ newRecs,
          products := st.products } id =
        recordsOf st id ++ newRecs.filter (fun r => decide (r.invoice_id = some id)) := by
      simp [recordsOf, List.filter_append]
    have hmapeq : newRecs = (itemsOf st id).map (specSalesRecord inv st.products) := by
      rw [hnr]
      refine List.map_congr_left ?_
      intro ii _
      rw [salesRecordOfItem_eq_spec]
      rfl
    constructor
    · rw [hrec, hrec0, List.nil_append, filter_recs_self hnewid, hmapeq]
    · rw [hrec, hrec0, List.nil_append, filter_recs_self hnewid, hnr, List.length_map]
  · intro st inv items hdone hitems0 hrec0 hitems
    rw [appCreateInvoice_done_eq st inv items hdone]
    have hnsr := newSalesRecords_insertPI st inv items hitems0 hitems
    set newRecs := newSalesRecords (insertItems (insertInvoice st inv) items) inv with hnr
    have hnewid : ∀ r ∈ newRecs, r.invoice_id = some inv.id := by
      intro r hr
      rw [hnr] at hr
      exact newSalesRecords_invoice_id _ inv r hr
    have hrec : recordsOf
        { invoices := st.invoices ++ [inv],
          invoice_items := st.invoice_items ++ items,
          sales_records := st.sales_records ++ newRecs,
          products := st.products } inv.id =
        recordsOf st inv.id ++ newRecs.filter (fun r => decide (r.invoice_id = some inv.id)) := by
      simp [recordsOf, List.filter_append]
    have hmapeq : newRecs = items.map (specSalesRecord inv st.products) := by
      rw [hnsr]
      refine List.map_congr_left ?_
      intro ii _
      rw [salesRecordOfItem_eq_spec]
    constructor
    · rw [hrec, hrec0, List.nil_append, filter_recs_self hnewid, hmapeq]
    · rw [hrec, hrec0, List.nil_append, filter_recs_self hnewid, hmapeq, List.length_map]

/-- Witness for C2: both materialization paths instantiated at a concrete
invoice with one item. -/
theorem c2_witness :
    recordsOf (updatePaymentStatus ⟨[invP], [item1], [], [prod1]⟩ "i1" "done") "i1" =
      [specSalesRecord invP [prod1] item1] ∧
    recordsOf (appCreateInvoice ⟨[], [], [], [prod1]⟩ invD [item1]) "i1" =
      [specSalesRecord invD [prod1] item1] := by
  constructor
  · exact (c2_materialization.1 ⟨[invP], [item1], [], [prod1]⟩ "i1" invP rfl rfl rfl).1
  · exact (c2_materialization.2 ⟨[], [], [], [prod1]⟩ invD [item1] rfl rfl rfl
      (by decide)).1

/-! ### C3 -/

/-- C3: the done→pending update atomically (in the single successor state
of the one-step transition) deletes exactly the sales records of the
updated invoice: afterwards no record of that invoice exists, every record
of any other invoice (or with a null invoice_id) is unchanged and present,
no record is invented, the invoice's payment_status is pending in the same
state, and invoice_items are untouched. -/
theorem c3_retraction :
    ∀ (st : DBState) (id : String) (inv : Invoice),
      st.invoices.find? (fun i => decide (i.id = id)) = some inv →
      inv.payment_status = "done" →
      (updatePaymentStatus st id "pending").sales_records =
        st.sales_records.filter (fun r => decide (r.invoice_id ≠ some id)) ∧
      recordsOf (updatePaymentStatus st id "pending") id = [] ∧
      (∀ r ∈ st.sales_records, r.invoice_id ≠ some id →
        r ∈ (updatePaymentStatus st id "pending").sales_records) ∧
      (∀ r ∈ (updatePaymentStatus st id "pending").sales_records, r ∈ st.sales_records) ∧
      (updatePaymentStatus st id "pending").invoices.find? (fun i => decide (i.id = id)) =
        some { inv with payment_status := "pending" } ∧
      (updatePaymentStatus st id "pending").invoice_items = st.invoice_items := by
  intro st id inv hfind hdone
  have hoid : inv.id = id := by simpa using List.find?_some hfind
  rw [updatePaymentStatus_done_pending hfind hdone]
  refine ⟨rfl, ?_, ?_, ?_, ?_, rfl⟩
  · exact filter_ne_then_eq_self _ id
  · intro r hr hne
    simp only [List.mem_filter]
    exact ⟨hr, by simpa using hne⟩
  · intro r hr
    exact (List.mem_filter.mp hr).1
  · rw [find?_map_id_preserving _ id ?_, hfind]
    · show some (if inv.id = id then { inv with payment_status := "pending" } else inv) = _
      rw [if_pos hoid]
    · intro i
      by_cases h : i.id = id
      · simp [h]
      · simp [h]

/-- A state with a done invoice, its item, its sales record, and a foreign
sales record of another invoice. -/
def c3State : DBState :=
  { invoices := [invD], invoice_items := [item1],
    sales_records := [salesRecordOfItem invD [prod1] item1,
      { salesRecordOfItem invD [prod1] item1 with invoice_id := some "i2" }],
    products := [prod1] }

/-- Witness for C3: the retraction theorem instantiated at a concrete done
invoice with one own record and one foreign record. -/
theorem c3_witness :
    recordsOf (updatePaymentStatus c3State "i1" "pending") "i1" = [] ∧
    ({ salesRecordOfItem invD [prod1] item1 with invoice_id := some "i2" } ∈
      (updatePaymentStatus c3State "i1" "pending").sales_records) := by
  have h := c3_retraction c3State "i1" invD rfl rfl
  refine ⟨h.2.1, ?_⟩
  exact h.2.2.1 _ (List.mem_cons_of_mem _ (List.mem_cons_self _ _)) (by decide)

/-! ### C4 -/

/-- C4 (amended): an invoice update that does not change payment_status is
a complete no-op on the state (given unique invoice ids), and
re-materialization through the trigger cycle done→pending→done recreates
exactly one sales record per current item, with no duplicates. -/
theorem c4_idempotence :
    (∀ (st : DBState) (id : String) (inv : Invoice),
      (st.invoices.map (fun i => i.id)).Nodup →
      st.invoices.find? (fun i => decide (i.id = id)) = some inv →
      updatePaymentStatus st id inv.payment_status = st) ∧
    (∀ (st : DBState) (id : String) (inv : Invoice),
      st.invoices.find? (fun i => decide (i.id = id)) = some inv →
      inv.payment_status = "done" →
      (recordsOf (updatePaymentStatus (updatePaymentStatus st id "pending") id "done")
          id).length = (itemsOf st id).length) := by
  constructor
  · intro st id inv hnodup hfind
    exact updatePaymentStatus_noop hnodup hfind rfl
  · intro st id inv hfind hdone
    have hoid : inv.id = id := by simpa using List.find?_some hfind
    rw [updatePaymentStatus_done_pending hfind hdone]
    set st1 : DBState :=
      { invoices := st.invoices.map
          (fun i => if i.id = id then { i with payment_status := "pending" } else i),
        invoice_items := st.invoice_items,
        sales_records := st.sales_records.filter (fun r => decide (r.invoice_id ≠ some id)),
        products := st.products } with hst1
    have hfind1 : st1.invoices.find? (fun i => decide (i.id = id)) =
        some { inv with payment_status := "pending" } := by
      rw [hst1]
      show (st.invoices.map _).find? _ = _
      rw [find?_map_id_preserving _ id ?_, hfind]
      · show some (if inv.id = id then { inv with payment_status := "pending" } else inv) = _
        rw [if_pos hoid]
      · intro i
        by_cases h : i.id = id
        · simp [h]
        · simp [h]
    rw [updatePaymentStatus_pending_done hfind1 rfl]
    set newRecs := (itemsOf st1 id).map
      (salesRecordOfItem
        { { inv with payment_status := "pending" } with payment_status := "done" }
        st1.products) with hnr
    have hnewid : ∀ r ∈ newRecs, r.invoice_id = some id := by
      intro r hr
      rcases List.mem_map.mp hr with ⟨ii, _, rfl⟩
      show some inv.id = some id
      rw [hoid]
    have hrec : recordsOf
        { invoices := st1.invoices.map
            (fun i => if i.id = id then { i with payment_status := "done" } else i),
          invoice_items := st1.invoice_items,
          sales_records := st1.sales_records ++ newRecs,
          products := st1.products } id =
        recordsOf st1 id ++ newRecs.filter (fun r => decide (r.invoice_id = some id)) := by
      simp [recordsOf, List.filter_append]
    have hrec1 : recordsOf st1 id = [] := by
      rw [hst1]
      exact filter_ne_then_eq_self _ id
    have hit1 : itemsOf st1 id = itemsOf st id := rfl
    rw [hrec, hrec1, List.nil_append, filter_recs_self hnewid, hnr, List.length_map, hit1]

/-- A fully materialized done invoice: one item, one matching sales record. -/
def c4State : DBState :=
  { invoices := [invD], invoice_items := [item1],
    sales_records := [salesRecordOfItem invD [prod1] item1], products := [prod1] }

/-- C4, counterexample: re-running the materialization function
create_sales_records_on_invoice on an invoice that is already fully
materialized (one record for its one item) inserts a second copy — the
function has no idempotency guard, so bare re-materialization does create
duplicate sales records. -/
theorem c4_counterexample :
    (recordsOf c4State "i1").length = 1 ∧
    (itemsOf c4State "i1").length = 1 ∧
    (recordsOf (create_sales_records_on_invoice c4State invD) "i1").length = 2 ∧
    (itemsOf (create_sales_records_on_invoice c4State invD) "i1").length = 1 := by
  decide

/-- Witness for C4: the no-op part and the cycle part instantiated at the
concrete fully materialized state. -/
theorem c4_witness :
    updatePaymentStatus c4State "i1" invD.payment_status = c4State ∧
    (recordsOf (updatePaymentStatus (updatePaymentStatus c4State "i1" "pending") "i1" "done")
        "i1").length = (itemsOf c4State "i1").length := by
  constructor
  · exact c4_idempotence.1 c4State "i1" invD (by decide) rfl
  · exact c4_idempotence.2 c4State "i1" invD rfl rfl

/-! ### C5 -/

theorem lpad_eq_zeroPad6 (s : String) (h : s.length ≤ 6) : lpad s 6 '0' = zeroPad6 s := by
  unfold lpad zeroPad6
  by_cases h6 : 6 ≤ s.length
  · rw [if_pos h6, if_neg (by omega)]
    have hlen : s.toList.length ≤ 6 := h
    rw [List.take_of_length_le hlen]
    cases s
    rfl
  · rw [if_neg h6, if_pos (by omega)]

/-- C5, counterexample: with an existing number INV-999999 the next
computed suffix is 1000000 and LPAD truncates it to its first six
characters, so the assigned number is INV-100000 — not the zero-padded
successor INV-1000000 the claim describes. -/
theorem c5_counterexample :
    set_invoice_number none ["INV-999999"] = "INV-100000" ∧
    claimInvoiceNumber ["INV-999999"] = "INV-1000000" ∧
    set_invoice_number none ["INV-999999"] ≠ claimInvoiceNumber ["INV-999999"] := by
  decide

/-- C5 (amended): as long as the successor of the maximum existing suffix
has at most six digits, the assigned number is exactly INV- followed by
that successor zero-padded to six digits (beyond six digits LPAD truncates);
in particular three sequential creations starting from an empty table yield
INV-000001, INV-000002, INV-000003. -/
theorem c5_invoice_number :
    (∀ existing : List String, maxInvSuffix existing + 1 ≤ 999999 →
      set_invoice_number none existing = claimInvoiceNumber existing) ∧
    set_invoice_number none [] = "INV-000001" ∧
    set_invoice_number none ["INV-000001"] = "INV-000002" ∧
    set_invoice_number none ["INV-000001", "INV-000002"] = "INV-000003" := by
  refine ⟨?_, by decide, by decide, by decide⟩
  intro existing h
  show generate_invoice_number existing = claimInvoiceNumber existing
  unfold generate_invoice_number claimInvoiceNumber
  congr 1
  apply lpad_eq_zeroPad6
  show (decDigits (maxInvSuffix existing + 1 + 1) (maxInvSuffix existing + 1)).length ≤ 6
  apply decDigits_length_le
  · omega
  · have : (10 : Nat) ^ 6 = 1000000 := by norm_num
    omega
  · omega

/-- Witness for C5: the padded-format equation instantiated at a concrete
one-element history. -/
theorem c5_witness :
    maxInvSuffix ["INV-000007"] + 1 ≤ 999999 ∧
    set_invoice_number none ["INV-000007"] = claimInvoiceNumber ["INV-000007"] :=
  ⟨by decide, c5_invoice_number.1 ["INV-000007"] (by decide)⟩

/-! ### C6 -/

theorem profit_quantity_pos :
    ∀ (records : List SalesRecord) (m : List ProductProfit),
      (∀ r ∈ records, 1 ≤ r.quantity) → (∀ g ∈ m, 0 < g.total_quantity) →
      ∀ g ∈ records.foldl profitStep m, 0 < g.total_quantity := by
  intro records
  induction records with
  | nil =>
    intro m _ hm g hg
    exact hm g hg
  | cons r rs ih =>
    intro m hq hm g hg
    simp only [List.foldl_cons] at hg
    refine ih (profitStep m r) (fun x hx => hq x (List.mem_cons_of_mem r hx)) ?_ g hg
    intro x hx
    have hr := hq r (List.mem_cons_self r rs)
    rcases mem_jsUpsert hx with ⟨y, hy, rfl⟩ | hx | rfl
    · have := hm y hy
      show 0 < y.total_quantity + r.quantity
      omega
    · exact hm x hx
    · show 0 < (freshProfit r).total_quantity + r.quantity
      show 0 < (0 : ℤ) + r.quantity
      omega

/-- First example record of the claim: ProdA, qty 2, unit price 100, cost
60 (so record-level total 200, snapshot profit 80). -/
def recA1 : SalesRecord :=
  { invoice_id := some "i1", invoice_number := "INV-000001", product_id := some "pa",
    product_name := "ProdA", size_name := none, color_name := none, quantity := 2,
    unit_price := 100, total_price := 200, cost_per_unit := some 60,
    profit_per_unit := some 40, total_profit := some 80, sale_date := 0 }

/-- Second example record: ProdA, qty 1, unit price 100, cost 60. -/
def recA2 : SalesRecord :=
  { recA1 with quantity := 1, total_price := 100, total_profit := some 40 }

/-- C6: the profits aggregation returns totalRevenue = Σ total_price,
totalCost = Σ cost_per_unit × quantity, totalProfit = totalRevenue −
totalCost; when every record has positive quantity, every grouped product
has positive total quantity and its averages are total_revenue /
total_quantity and total_cost / total_quantity; on the two ProdA example
records it yields quantity 3, revenue 300, cost 180, profit 120, average
sale price 100 and average cost price 60. -/
theorem c6_profits :
    (∀ records : List SalesRecord,
      (getProfitData records).totalRevenue = (records.map (fun r => r.total_price)).sum ∧
      (getProfitData records).totalCost =
        (records.map (fun r => numOf r.cost_per_unit * (r.quantity : ℚ))).sum ∧
      (getProfitData records).totalProfit =
        (getProfitData records).totalRevenue - (getProfitData records).totalCost) ∧
    (∀ records : List SalesRecord, (∀ r ∈ records, 1 ≤ r.quantity) →
      ∀ p ∈ (getProfitData records).products,
        0 < p.total_quantity ∧
        p.avg_sale_price = p.total_revenue / (p.total_quantity : ℚ) ∧
        p.avg_cost_price = p.total_cost / (p.total_quantity : ℚ)) ∧
    ((getProfitData [recA1, recA2]).totalRevenue = 300 ∧
      (getProfitData [recA1, recA2]).totalCost = 180 ∧
      (getProfitData [recA1, recA2]).totalProfit = 120 ∧
      (getProfitData [recA1, recA2]).products =
        [{ product_id := some "pa", product_name := "ProdA", total_quantity := 3,
           total_revenue := 300, total_cost := 180, total_profit := 120,
           avg_sale_price := 100, avg_cost_price := 60 }]) := by
  refine ⟨?_, ?_, ?_⟩
  · intro records
    refine ⟨?_, ?_, rfl⟩
    · show records.foldl (fun a r => a + r.total_price) 0 = _
      rw [foldl_add_map_sum, zero_add]
    · show records.foldl (fun a r => a + numOf r.cost_per_unit * (r.quantity : ℚ)) 0 = _
      rw [foldl_add_map_sum, zero_add]
  · intro records hq p hp
    have hp' : p ∈ ((records.foldl profitStep []).map applyAverages) := by
      have := mem_jsSortBy.mp hp
      exact this
    rcases List.mem_map.mp hp' with ⟨g, hg, rfl⟩
    have hpos : 0 < g.total_quantity :=
      profit_quantity_pos records [] hq (by simp) g hg
    exact ⟨hpos, rfl, rfl⟩
  · refine ⟨?_, ?_, ?_, ?_⟩
    · norm_num [getProfitData, numOf, recA1, recA2]
    · norm_num [getProfitData, numOf, recA1, recA2]
    · norm_num [getProfitData, numOf, recA1, recA2]
    · norm_num [getProfitData, profitStep, jsUpsert, freshProfit, addRecordToProfit,
        applyAverages, jsSortBy, insertLe, numOf, recA1, recA2]

/-- Witness for C6: the per-product average part instantiated on the two
example records (whose single grouped entry is the accumulated ProdA row). -/
theorem c6_witness :
    (∀ r ∈ [recA1, recA2], 1 ≤ r.quantity) ∧
    0 < (applyAverages (addRecordToProfit recA2
        (addRecordToProfit recA1 (freshProfit recA1)))).total_quantity := by
  refine ⟨by decide, ?_⟩
  exact (c6_profits.2.1 [recA1, recA2] (by decide) _ (List.mem_cons_self _ _)).1

/-! ### C7 -/

/-- Example record P1: qty 10, revenue 1000. -/
def rP1 : SalesRecord :=
  { invoice_id := some "i1", invoice_number := "N", product_id := some "P1",
    product_name := "P1", size_name := none, color_name := none, quantity := 10,
    unit_price := 100, total_price := 1000, cost_per_unit := some 0,
    profit_per_unit := some 100, total_profit := some 1000, sale_date := 0 }

/-- Example record P2: qty 15, revenue 800. -/
def rP2 : SalesRecord :=
  { rP1 with
    product_id := some "P2", product_name := "P2", quantity := 15, total_price := 800 }

/-- One of 21 single-product records: product q<n>, quantity 1 except the
last product q20, which has quantity 100. -/
def trendRec (n : Nat) : SalesRecord :=
  { invoice_id := some "i1", invoice_number := "N", product_id := some ("q" ++ decRepr n),
    product_name := "q" ++ decRepr n, size_name := none, color_name := none,
    quantity := if n = 20 then 100 else 1, unit_price := 0, total_price := 0,
    cost_per_unit := some 0, profit_per_unit := some 0, total_profit := some 0,
    sale_date := 0 }

/-- 21 records over 21 distinct products; the 21st (q20) dominates by
quantity. -/
def trendRecs : List SalesRecord :=
  (List.range 21).map trendRec

/-- C7, counterexample: with 21 grouped products, the displayed trending
list is not the top 20 by the selected key — the code truncates to the
first 20 products in insertion order before sorting, so q20, the product
with by far the highest quantity, is missing from the display even though
the claimed sort-then-truncate order contains it. -/
theorem c7_counterexample :
    (displayedTrending SortKey.quantity trendRecs).map (fun t => t.product_id) ≠
      (claimTrending SortKey.quantity trendRecs).map (fun t => t.product_id) ∧
    some "q20" ∈ (claimTrending SortKey.quantity trendRecs).map (fun t => t.product_id) ∧
    some "q20" ∉ (displayedTrending SortKey.quantity trendRecs).map (fun t => t.product_id) := by
  refine ⟨by decide, by decide, by decide⟩

/-- C7 (amended): the trending view sorts only the already truncated list,
so whenever at most 20 products are grouped the display equals the full
sorted list (and is sorted by the selected key in descending order, which
always holds); on the two-product example the quantity order is [P2, P1]
and the revenue order is [P1, P2]. -/
theorem c7_trending :
    (∀ (records : List SalesRecord) (k : SortKey),
      (records.foldl trendStep []).length ≤ 20 →
      displayedTrending k records = jsSortBy (trendLe k) (records.foldl trendStep [])) ∧
    (∀ (records : List SalesRecord) (k : SortKey),
      List.Pairwise (fun a b => trendLe k a b = true) (displayedTrending k records)) ∧
    (displayedTrending SortKey.quantity [rP1, rP2]).map (fun t => t.product_name) =
      ["P2", "P1"] ∧
    (displayedTrending SortKey.revenue [rP1, rP2]).map (fun t => t.product_name) =
      ["P1", "P2"] := by
  refine ⟨?_, ?_, by decide, ?_⟩
  · intro records k h
    unfold displayedTrending getTrendingProducts
    rw [List.take_of_length_le h]
  · intro records k
    refine jsSortBy_pairwise ?_ ?_ _
    · intro a b c hab hbc
      cases k
      · simp only [trendLe, decide_eq_true_eq] at hab hbc ⊢
        omega
      · simp only [trendLe, decide_eq_true_eq] at hab hbc ⊢
        exact le_trans hbc hab
    · intro a b hab
      cases k
      · simp only [trendLe, decide_eq_true_eq, decide_eq_false_iff_not] at hab ⊢
        omega
      · simp only [trendLe, decide_eq_true_eq, decide_eq_false_iff_not] at hab ⊢
        exact le_of_not_le hab
  · norm_num [displayedTrending, getTrendingProducts, trendStep, jsUpsert, freshTrend,
      addRecordToTrend, jsSortBy, insertLe, trendLe, rP1, rP2]

/-- Witness for C7: the sort-covers-everything part instantiated on the
two-product example, where only two products are grouped. -/
theorem c7_witness :
    ([rP1, rP2].foldl trendStep []).length ≤ 20 ∧
    displayedTrending SortKey.quantity [rP1, rP2] =
      jsSortBy (trendLe SortKey.quantity) ([rP1, rP2].foldl trendStep []) :=
  ⟨by decide, c7_trending.1 [rP1, rP2] SortKey.quantity (by decide)⟩

/-! ### C8 -/

theorem saleStep_sum {M : Type} [AddCommMonoid M] (g : ProductSale → M)
    (gr : SalesRecord → M)
    (hg : ∀ r x, g (addRecordToSale r x) = g x + gr r)
    (hgi : ∀ r, g (freshSale r) = 0) :
    ∀ (records : List SalesRecord) (m : List ProductSale) (n : String),
      (((records.foldl saleStep m).filter (fun s => decide (s.name = n))).map g).sum =
        ((m.filter (fun s => decide (s.name = n))).map g).sum +
          ((records.filter (fun r => decide (r.product_name = n))).map gr).sum := by
  intro records
  induction records with
  | nil =>
    intro m n
    simp
  | cons r rs ih =>
    intro m n
    simp only [List.foldl_cons]
    rw [ih (saleStep m r) n]
    have hstep := sumBy_jsUpsert r.product_name (fun (s : ProductSale) => s.name)
      (freshSale r) (addRecordToSale r) g (gr r) n
      (fun x => (rfl : (addRecordToSale r x).name = x.name))
      (rfl : (freshSale r).name = r.product_name)
      (fun x => hg r x) (hgi r) m
    rw [show saleStep m r = jsUpsert r.product_name (fun (s : ProductSale) => s.name)
      (freshSale r) (addRecordToSale r) m from rfl, hstep]
    by_cases hn : r.product_name = n
    · simp [List.filter_cons, hn, add_assoc, add_comm, add_left_comm]
    · simp [List.filter_cons, hn]

theorem saleStep_names_nodup :
    ∀ (records : List SalesRecord) (m : List ProductSale),
      ((m.map (fun s => s.name)).Nodup) →
      (((records.foldl saleStep m).map (fun s => s.name)).Nodup) := by
  intro records
  induction records with
  | nil => intro m hm; exact hm
  | cons r rs ih =>
    intro m hm
    simp only [List.foldl_cons]
    exact ih (saleStep m r)
      (@nodup_key_jsUpsert ProductSale String _ r.product_name (fun s => s.name)
        (freshSale r) (addRecordToSale r)
        (fun x => (rfl : (addRecordToSale r x).name = x.name))
        (rfl : (freshSale r).name = r.product_name) m hm)

theorem saleStep_name_mem :
    ∀ (records : List SalesRecord) (m : List ProductSale) (n : String),
      (n ∈ m.map (fun s => s.name) ∨ ∃ r ∈ records, r.product_name = n) →
      n ∈ (records.foldl saleStep m).map (fun s => s.name) := by
  intro records
  induction records with
  | nil =>
    intro m n h
    rcases h with h | ⟨r, hr, _⟩
    · exact h
    · simp at hr
  | cons r rs ih =>
    intro m n h
    simp only [List.foldl_cons]
    rcases h with h | ⟨x, hx, hxn⟩
    · exact ih (saleStep m r) n
        (Or.inl (key_mem_jsUpsert r.product_name (fun (s : ProductSale) => s.name)
          (freshSale r) (addRecordToSale r)
          (fun y => (rfl : (addRecordToSale r y).name = y.name))
          (rfl : (freshSale r).name = r.product_name) m n (Or.inl h)))
    · rcases List.mem_cons.mp hx with hx | hx
      · subst hx
        exact ih (saleStep m x) n
          (Or.inl (key_mem_jsUpsert x.product_name (fun (s : ProductSale) => s.name)
            (freshSale x) (addRecordToSale x)
            (fun y => (rfl : (addRecordToSale x y).name = y.name))
            (rfl : (freshSale x).name = x.product_name) m n (Or.inr hxn.symm)))
      · exact ih (saleStep m r) n (Or.inr ⟨x, hx, hxn⟩)

/-- C8 analytics record with product_id a, name X. -/
def r8a : SalesRecord :=
  { invoice_id := some "i1", invoice_number := "N", product_id := some "a",
    product_name := "X", size_name := none, color_name := none, quantity := 1,
    unit_price := 10, total_price := 10, cost_per_unit := some 0,
    profit_per_unit := some 10, total_profit := some 10, sale_date := 0 }

/-- C8 analytics record with a different product_id b but the same name X. -/
def r8b : SalesRecord :=
  { r8a with product_id := some "b", quantity := 2, total_price := 20 }

/-- C8, counterexample: two records with distinct product_ids but the same
product_name: grouping by product_id (with name only as fallback) would
produce two summaries, but the view produces one — the query selects only
product_name and groups by it, never by product_id. -/
theorem c8_counterexample :
    (claimSaleGroups [r8a, r8b]).length = 2 ∧
    (productSales [r8a, r8b]).length = 1 ∧
    (productSales [r8a, r8b]).map (fun s => s.name) = ["X"] := by
  refine ⟨by decide, by decide, by decide⟩

/-- C8 (amended): the product-sales view groups records by product_name
alone (each displayed name is unique and carries the sums of quantity and
total_price over exactly the records with that product_name, and every
record's name is displayed), and the summaries are sorted by revenue
descending. -/
theorem c8_product_sales :
    (∀ records : List SalesRecord,
      List.Pairwise (fun a b => b.revenue ≤ a.revenue) (productSales records)) ∧
    (∀ (records : List SalesRecord) (n : String),
      (((productSales records).filter (fun s => decide (s.name = n))).map
          (fun s => s.quantity)).sum =
        ((records.filter (fun r => decide (r.product_name = n))).map
          (fun r => r.quantity)).sum ∧
      (((productSales records).filter (fun s => decide (s.name = n))).map
          (fun s => s.revenue)).sum =
        ((records.filter (fun r => decide (r.product_name = n))).map
          (fun r => r.total_price)).sum) ∧
    (∀ records : List SalesRecord,
      ((productSales records).map (fun s => s.name)).Nodup) ∧
    (∀ (records : List SalesRecord) (r : SalesRecord), r ∈ records →
      ∃ s ∈ productSales records, s.name = r.product_name) := by
  refine ⟨?_, ?_, ?_, ?_⟩
  · intro records
    unfold productSales
    by_cases h : records.isEmpty
    · simp [h]
    · rw [if_neg h]
      have hs := @jsSortBy_pairwise ProductSale
        (fun a b => decide (b.revenue ≤ a.revenue))
        ?_ ?_ (records.foldl saleStep [])
      · exact hs.imp (fun hab => by simpa using hab)
      · intro a b c hab hbc
        simp only [decide_eq_true_eq] at hab hbc ⊢
        exact le_trans hbc hab
      · intro a b hab
        simp only [decide_eq_true_eq, decide_eq_false_iff_not] at hab ⊢
        exact le_of_not_le hab
  · intro records n
    unfold productSales
    by_cases h : records.isEmpty
    · have : records = [] := List.isEmpty_iff.mp h
      subst this
      simp
    · rw [if_neg h]
      have hperm : (jsSortBy (fun a b => decide (b.revenue ≤ a.revenue))
          (records.foldl saleStep [])).Perm (records.foldl saleStep []) :=
        jsSortBy_perm _ _
      constructor
      · rw [((hperm.filter _).map _).sum_eq]
        have := saleStep_sum (fun s => s.quantity) (fun r => r.quantity)
          (fun r x => rfl) (fun r => rfl) records [] n
        simpa using this
      · rw [((hperm.filter _).map _).sum_eq]
        have := saleStep_sum (fun s => s.revenue) (fun r => r.total_price)
          (fun r x => rfl) (fun r => rfl) records [] n
        simpa using this
  · intro records
    unfold productSales
    by_cases h : records.isEmpty
    · simp [h]
    · rw [if_neg h]
      have hperm := (jsSortBy_perm (fun (a b : ProductSale) => decide (b.revenue ≤ a.revenue))
        (records.foldl saleStep [])).map (fun s => s.name)
      rw [hperm.nodup_iff]
      exact saleStep_names_nodup records [] (by simp)
  · intro records r hr
    have hne : records.isEmpty = false := by
      cases records with
      | nil => simp at hr
      | cons x xs => rfl
    have hmem : r.product_name ∈ (records.foldl saleStep []).map (fun s => s.name) :=
      saleStep_name_mem records [] r.product_name (Or.inr ⟨r, hr, rfl⟩)
    rcases List.mem_map.mp hmem with ⟨s, hs, hsn⟩
    refine ⟨s, ?_, hsn⟩
    unfold productSales
    rw [hne]
    simp only [Bool.false_eq_true, if_neg, not_false_eq_true]
    exact mem_jsSortBy.mpr hs

/-- Witness for C8: a concrete record whose product name appears among the
aggregated summaries. -/
theorem c8_witness : productSales [r8a, r8b] ≠ [] := by
  obtain ⟨s, hs, _⟩ :=
    c8_product_sales.2.2.2 [r8a, r8b] r8a (List.mem_cons_self _ _)
  intro hcon
  rw [hcon] at hs
  exact absurd hs (List.not_mem_nil s)

/-! ### C9 -/

/-- A state with one done invoice, its item, its own sales record and a
foreign sales record. -/
def c9State : DBState :=
  { invoices := [invD], invoice_items := [item1],
    sales_records := [salesRecordOfItem invD [prod1] item1,
      { salesRecordOfItem invD [prod1] item1 with invoice_id := some "i2" }],
    products := [prod1] }

/-- C9, counterexample: deleting the invoice removes its invoice_items
(cascade) but keeps both sales records — the record that referenced the
invoice survives with invoice_id set to NULL instead of being deleted, so
"all of its sales_records are deleted with it" is false. -/
theorem c9_counterexample :
    ((deleteInvoice c9State "i1").invoice_items).length = 0 ∧
    ((deleteInvoice c9State "i1").sales_records).length = 2 ∧
    ((deleteInvoice c9State "i1").sales_records).map (fun r => r.invoice_id) =
      [none, some "i2"] := by
  refine ⟨by decide, by decide, by decide⟩

/-- C9 (amended): deleting an invoice cascade-deletes its invoice_items and
removes the invoice row, while its sales_records are retained with their
invoice_id set to NULL (the foreign key is ON DELETE SET NULL): afterwards
no invoice_item and no sales_record references the deleted invoice, the
number of sales_records is unchanged, and records of other invoices are
untouched. -/
theorem c9_delete_cascade :
    ∀ (st : DBState) (id : String),
      itemsOf (deleteInvoice st id) id = [] ∧
      (∀ i ∈ (deleteInvoice st id).invoices, i.id ≠ id) ∧
      ((deleteInvoice st id).sales_records).length = st.sales_records.length ∧
      (∀ r ∈ (deleteInvoice st id).sales_records, r.invoice_id ≠ some id) ∧
      (∀ r ∈ st.sales_records, r.invoice_id ≠ some id →
        r ∈ (deleteInvoice st id).sales_records) := by
  intro st id
  refine ⟨?_, ?_, ?_, ?_, ?_⟩
  · show (st.invoice_items.filter (fun ii => decide (ii.invoice_id ≠ id))).filter
      (fun ii => decide (ii.invoice_id = id)) = []
    rw [List.filter_filter]
    refine List.filter_eq_nil_iff.mpr ?_
    intro ii _
    by_cases h : ii.invoice_id = id
    · simp [h]
    · simp [h]
  · intro i hi
    have := (List.mem_filter.mp hi).2
    simpa using this
  · exact List.length_map _ _
  · intro r hr
    rcases List.mem_map.mp hr with ⟨x, _, rfl⟩
    by_cases h : x.invoice_id = some id
    · rw [if_pos h]
      simp
    · rw [if_neg h]
      exact h
  · intro r hr hne
    have : (if r.invoice_id = some id then { r with invoice_id := none } else r) = r := by
      rw [if_neg hne]
    rw [← this]
    exact List.mem_map_of_mem _ hr

/-- Witness for C9: the frame part instantiated — the foreign record
survives the deletion unchanged. -/
theorem c9_witness :
    ({ salesRecordOfItem invD [prod1] item1 with invoice_id := some "i2" } ∈
      (deleteInvoice c9State "i1").sales_records) :=
  (c9_delete_cascade c9State "i1").2.2.2.2 _
    (List.mem_cons_of_mem _ (List.mem_cons_self _ _)) (by decide)

/-! ### C10 -/

/-- C10, counterexample: a row inserted with an explicit NULL
payment_status is accepted and stored as NULL — a SQL CHECK constraint
passes on NULL, so not every stored payment_status is 'pending' or 'done'
and NULL is not rejected. -/
theorem c10_counterexample :
    insertPaymentStatus (some none) = some none ∧
    (none : Option String) ≠ some "pending" ∧
    (none : Option String) ≠ some "done" := by
  refine ⟨rfl, by decide, by decide⟩

/-- C10 (amended): an insert that omits payment_status stores the default
'done'; an explicit non-null value is stored iff it is 'done' or 'pending'
(any other non-null value violates the CHECK and is rejected); every value
that can be stored is NULL, 'done' or 'pending'. -/
theorem c10_payment_status :
    insertPaymentStatus none = some (some "done") ∧
    (∀ s : String,
      insertPaymentStatus (some (some s)) = some (some s) ↔ (s = "done" ∨ s = "pending")) ∧
    (∀ (v : Option (Option String)) (r : Option String),
      insertPaymentStatus v = some r → r = none ∨ r = some "done" ∨ r = some "pending") := by
  refine ⟨rfl, ?_, ?_⟩
  · intro s
    constructor
    · intro h
      by_cases hc : payment_status_check (some s)
      · simpa [payment_status_check] using hc
      · rw [insertPaymentStatus, if_neg hc] at h
        exact absurd h (by simp)
    · intro h
      have hc : payment_status_check (some s) := by
        simpa [payment_status_check] using h
      rw [insertPaymentStatus, if_pos hc]
  · intro v r h
    match v with
    | none =>
      rw [insertPaymentStatus] at h
      have : r = some "done" := by
        injection h with h
        exact h.symm
      exact Or.inr (Or.inl this)
    | some none =>
      rw [insertPaymentStatus] at h
      simp only [payment_status_check, if_pos] at h
      injection h with h
      exact Or.inl h.symm
    | some (some s) =>
      by_cases hc : payment_status_check (some s)
      · rw [insertPaymentStatus, if_pos hc] at h
        injection h with h
        subst h
        rcases (by simpa [payment_status_check] using hc : s = "done" ∨ s = "pending") with
          hs | hs
        · exact Or.inr (Or.inl (by rw [hs]))
        · exact Or.inr (Or.inr (by rw [hs]))
      · rw [insertPaymentStatus, if_neg hc] at h
        exact absurd h (by simp)

/-- Witness for C10: the CHECK accepts the explicit value 'pending'. -/
theorem c10_witness :
    insertPaymentStatus (some (some "pending")) = some (some "pending") :=
  (c10_payment_status.2.1 "pending").mpr (Or.inr rfl)

end Stockeazy
